import Mathlib

/-!
Shallow embedding of the reconciliation scripts `pipedrive_sync.py` and
`pipedrive_enrichment.py`.

Python dictionaries are modelled as association lists (`List (κ × V)`)
with insertion-order semantics: assignment (`aset`) updates an existing
binding in place or appends a new one at the end, exactly as a Python
dict does.  The HTTP layer is modelled by oracles: a paginated endpoint
is a list of page responses consumed in order, and the success flag of a
mutating call is supplied by an oracle function.
-/

namespace PD

/-- Python `str.lower()` (character-wise lowering). -/
def pyLower (s : String) : String := String.mk (s.data.map Char.toLower)

/-- Python `str.strip()`: drop whitespace from both ends. -/
def pyStrip (s : String) : String :=
  String.mk
    (((s.data.dropWhile Char.isWhitespace).reverse.dropWhile
        Char.isWhitespace).reverse)

/-- First binding for a key, i.e. Python `d[k]` / `d.get(k)`. -/
def alookup {κ V : Type} [DecidableEq κ] : List (κ × V) → κ → Option V
  | [], _ => none
  | (k', v) :: rest, k => if k' = k then some v else alookup rest k

/-- Python `k in d`. -/
def hasKey {κ V : Type} [DecidableEq κ] (m : List (κ × V)) (k : κ) : Bool :=
  m.any (fun kv => kv.1 = k)

/-- Python `d[k] = v`: overwrite in place, else append at the end. -/
def aset {κ V : Type} [DecidableEq κ] : List (κ × V) → κ → V → List (κ × V)
  | [], k, v => [(k, v)]
  | (k', v') :: rest, k, v =>
      if k' = k then (k, v) :: rest else (k', v') :: aset rest k v

/-- The keys of a dict, in insertion order. -/
def keysOf {κ V : Type} (m : List (κ × V)) : List κ := m.map Prod.fst

/-- A Pipedrive entity id: ordinarily an integer assigned by the CRM,
but the dry-run path of `create_missing_orgs` synthesizes string ids of
the form `"DRY_RUN_<postgres org id>"`.  Python compares ints and
strings as never equal, which the inductive equality reproduces. -/
inductive PDId : Type
  | int (n : Int)
  | str (s : String)
deriving DecidableEq, Repr

/-- Python truthiness of an id value (`0` and `""` are falsy). -/
def PDId.truthy : PDId → Bool
  | .int n => n ≠ 0
  | .str s => s ≠ ""

/-- Python truthiness of an optional id (`None`, `0`, `""` falsy). -/
def optIdTruthy : Option PDId → Bool
  | none => false
  | some i => i.truthy

end PD

namespace Sync

open PD

/-- One row of the Postgres CSV export read by `pipedrive_sync.py`
(`load_postgres_data`): columns `Email`, `Organization Name`,
`Organization ID`, `User ID`, `Full Name`. -/
structure CSVRow where
  email : String
  orgName : String
  orgId : Int
  userId : Int
  fullName : String
deriving DecidableEq, Repr

/-- An organization as stored in the loader's lookups: `{'name', 'id'}`. -/
structure PGOrg where
  name : String
  id : Int
deriving DecidableEq, Repr

/-- A user as stored by `load_postgres_data`:
`{'name', 'user_id', 'orgs': [...]}`. -/
structure PGUser where
  name : String
  user_id : Int
  orgs : List PGOrg
deriving DecidableEq, Repr

/-- `users[email]['orgs'].append({'name': .., 'id': ..})` guarded by
`org_exists = any(o['id'] == org_id for o in users[email]['orgs'])`. -/
def addOrgIfNew (os : List PGOrg) (name : String) (id : Int) : List PGOrg :=
  if os.any (fun o => o.id = id) then os else os ++ [⟨name, id⟩]

/-- The accumulated state of `load_postgres_data`: the `users` and
`orgs` dictionaries. -/
structure PGData where
  users : List (String × PGUser)
  orgs : List (String × PGOrg)
deriving Repr

/-- The body of the `for row in reader` loop of `load_postgres_data`.
The Python code inserts a fresh user when `email not in users` and then
mutates `users[email]['orgs']` in place; here the two steps are fused
into one `aset` of the updated entry, which leaves the same dict. -/
def load_row (acc : PGData) (row : CSVRow) : PGData :=
  let email := pyStrip (pyLower row.email)
  let org_name := pyStrip row.orgName
  let org_id := row.orgId
  let user_id := row.userId
  let full_name := pyStrip row.fullName
  let org_key := pyLower org_name
  let orgs := if hasKey acc.orgs org_key then acc.orgs
              else aset acc.orgs org_key ⟨org_name, org_id⟩
  let u0 := match alookup acc.users email with
            | some u => u
            | none => ⟨full_name, user_id, []⟩
  let users := aset acc.users email
                 { u0 with orgs := addOrgIfNew u0.orgs org_name org_id }
  ⟨users, orgs⟩

/-- `load_postgres_data` of `pipedrive_sync.py`: fold the CSV rows into
the `users` and `orgs` dictionaries. -/
def load_postgres_data (rows : List CSVRow) : PGData :=
  rows.foldl load_row ⟨[], []⟩

/-- One entry of the rendered organization list: `f"{name} ({id})"`. -/
def fmtOrg (o : PGOrg) : String := o.name ++ " (" ++ toString o.id ++ ")"

/-- The "All LIGR Organizations" value:
`", ".join(f"{org['name']} ({org['id']})" for org in user['orgs'])`. -/
def allOrgsValue (u : PGUser) : String :=
  String.intercalate ", " (u.orgs.map fmtOrg)

end Sync

namespace Enrich

open PD

/-- One row of the CSV read by `pipedrive_enrichment.py`; `row.get(..)`
of a DictReader row yields `None` when a column is missing, so every
field is optional. -/
structure ERow where
  email : Option String
  full_name : Option String
  user_id : Option String
  all_ligr_organizations : Option String
deriving DecidableEq, Repr

/-- The normalized key `(row.get("email") or "").strip().lower()`. -/
def rowKey (row : ERow) : String := pyLower (pyStrip (row.email.getD ""))

/-- The loop body of `load_postgres_data` in `pipedrive_enrichment.py`:
skip rows with an empty key, otherwise `users[email] = row`. -/
def load_row (users : List (String × ERow)) (row : ERow) :
    List (String × ERow) :=
  let email := rowKey row
  if email = "" then users else aset users email row

/-- `load_postgres_data` of `pipedrive_enrichment.py`. -/
def load_postgres_data (rows : List ERow) : List (String × ERow) :=
  rows.foldl load_row []

end Enrich

namespace PD

/-- One page response of a paginated Pipedrive endpoint: the `success`
flag, the `data` array and
`additional_data.pagination.more_items_in_collection`. -/
structure Page (α : Type) where
  success : Bool
  data : List α
  more_items_in_collection : Bool
deriving Repr

/-- `fetch_all_paginated` (and `fetch_all_people`, which has the same
loop): consume page responses in request order, accumulating `data`.
The loop breaks when a page reports `success=false` or has empty/missing
`data`, and also after a page with no further items; the offset
bookkeeping (`start`, `next_start`) only selects which page the service
returns next and is absorbed into the response list. -/
def fetch_all_paginated {α : Type} : List (Page α) → List α → List α
  | [], acc => acc
  | p :: rest, acc =>
      if !p.success || p.data.isEmpty then acc
      else if !p.more_items_in_collection then acc ++ p.data
      else fetch_all_paginated rest (acc ++ p.data)

end PD

namespace PD

/-- A Pipedrive organization record (the fields the scripts read). -/
structure PDOrg where
  id : PDId
  name : String
deriving DecidableEq, Repr

/-- A Pipedrive person record (the fields the scripts read).  The
`email` field is the list of raw email values carried by the record
(the dict-or-string shape of each entry is already collapsed to its
`value` string).  `customFields` holds the person's current custom
field values as returned by the API; `pipedrive_sync.py` never reads
them. -/
structure PDPerson where
  id : Int
  name : Option String
  email : List String
  org_id : Option PDId
  customFields : List (String × String)
deriving DecidableEq, Repr

/-- The `person_by_email` loop of `load_pipedrive_data` (and
`build_email_index` in `pipedrive_enrichment.py`): every non-empty
normalized email of a person maps to that person; a later person
overwrites an earlier one sharing an email. -/
def build_email_index (persons : List PDPerson) : List (String × PDPerson) :=
  persons.foldl
    (fun idx p =>
      p.email.foldl
        (fun idx e =>
          let e' := pyStrip (pyLower e)
          if e' ≠ "" then aset idx e' p else idx)
        idx)
    []

/-- The `org_by_name` / `org_by_id` loop of `load_pipedrive_data`. -/
def build_org_indexes (orgs : List PDOrg) :
    List (String × PDOrg) × List (PDId × PDOrg) :=
  orgs.foldl
    (fun acc o => (aset acc.1 (pyStrip (pyLower o.name)) o, aset acc.2 o.id o))
    ([], [])

end PD

namespace Sync

open PD

/-- An entry of the `created` list returned by `create_missing_orgs`:
the dry-run path appends the Postgres org dict itself, the live path
appends `{'name': .., 'pd_id': ..}`. -/
inductive CreatedOrg : Type
  | dry (org : PGOrg)
  | live (name : String) (pd_id : PDId)
deriving DecidableEq, Repr

/-- The result of `create_missing_orgs` plus the observable network
traffic: `posts` records every `api_post('organizations', ...)` call
(by org name), and `index` is the mutated `pd_org_by_name` dict. -/
structure OrgCreateResult where
  created : List CreatedOrg
  failed : List String
  index : List (String × PDOrg)
  posts : List String
deriving Repr

/-- One iteration of the `for org_key in missing_orgs` loop of
`create_missing_orgs`.  `createOrg` is the service oracle: the org
object returned on success, `none` on failure. -/
def create_org_step (dryRun : Bool) (createOrg : String → Option PDOrg)
    (st : OrgCreateResult) (kv : String × PGOrg) : OrgCreateResult :=
  let org := kv.2
  if dryRun then
    { st with
      index := aset st.index kv.1
                 ⟨PDId.str ("DRY_RUN_" ++ toString org.id), org.name⟩,
      created := st.created ++ [.dry org] }
  else
    match createOrg org.name with
    | some newOrg =>
        { st with
          index := aset st.index kv.1 newOrg,
          created := st.created ++ [.live org.name newOrg.id],
          posts := st.posts ++ [org.name] }
    | none =>
        { st with
          failed := st.failed ++ [org.name],
          posts := st.posts ++ [org.name] }

/-- `create_missing_orgs`: iterate over the Postgres orgs missing from
the Pipedrive name index (Python iterates the set difference; the
source order of `postgres_orgs` stands in for the arbitrary set order),
creating each and inserting the result into the index immediately. -/
def create_missing_orgs (dryRun : Bool) (createOrg : String → Option PDOrg)
    (postgres_orgs : List (String × PGOrg))
    (pd_org_by_name : List (String × PDOrg)) : OrgCreateResult :=
  let missing := postgres_orgs.filter (fun kv => !hasKey pd_org_by_name kv.1)
  missing.foldl (create_org_step dryRun createOrg)
    ⟨[], [], pd_org_by_name, []⟩

/-- The `update_data` dict of `sync_persons`: an optional `org_id`
entry plus custom-field entries keyed by field key. -/
structure UpdateData where
  org_id : Option PDId
  fields : List (String × String)
deriving DecidableEq, Repr

/-- Python truthiness of `update_data` (`if update_data:`). -/
def UpdateData.isEmpty (u : UpdateData) : Bool :=
  u.org_id.isNone && u.fields.isEmpty

/-- One `change_record` row of `sync_persons`. -/
structure ChangeRecord where
  email : String
  name : Option String
  pd_person_id : Int
  current_org : Option String
  new_org : Option String
  org_action : String
  all_orgs : Option String
  status : String
  error : Option String
deriving DecidableEq, Repr

/-- `current_org_name`: resolved through `pd_org_by_id` only when the
contact's `org_id` is truthy and present in the index. -/
def currentOrgName (pd_org_by_id : List (PDId × PDOrg))
    (org_id : Option PDId) : Option String :=
  match org_id with
  | some cid =>
      if cid.truthy then (alookup pd_org_by_id cid).map PDOrg.name else none
  | none => none

/-- `current_matches`: the current org name is truthy and its lowercase
form occurs among the lowercased Postgres org names of the user. -/
def currentMatches (current_org_name : Option String) (u : PGUser) : Bool :=
  match current_org_name with
  | some n =>
      n ≠ "" && (u.orgs.map (fun o => pyLower o.name)).contains (pyLower n)
  | none => false

/-- The organization-resolution block of `sync_persons`: returns
`(new_org_id, new_org_name, org_action)`.  The `[0]` index of
`postgres_user['orgs'][0]` is total here via `headD`; the loader
guarantees every user has at least one org. -/
def resolveOrg (pd_org_by_name : List (String × PDOrg))
    (current_org_id : Option PDId) (current_org_name : Option String)
    (u : PGUser) : Option PDId × Option String × String :=
  if currentMatches current_org_name u then
    (current_org_id, current_org_name, "kept")
  else
    let primary := u.orgs.headD ⟨"", 0⟩
    let primary_org_key := pyLower primary.name
    match alookup pd_org_by_name primary_org_key with
    | some pd_org => (some pd_org.id, some pd_org.name, "updated")
    | none => (current_org_id, current_org_name, "skipped (org not found)")

/-- The `update_data` dict construction of `sync_persons`: the org
link only when it changed and is not `None`; the all-orgs field always,
whenever a usable (truthy, non-dry-run) field key exists — with no
comparison against the contact's current value. -/
def build_update_data (all_orgs_field_key : Option String)
    (current_org_id new_org_id : Option PDId) (all_orgs_value : String) :
    UpdateData :=
  let ud0 : UpdateData :=
    ⟨if new_org_id ≠ current_org_id && new_org_id.isSome then new_org_id
      else none, []⟩
  match all_orgs_field_key with
  | some k =>
      if k ≠ "" && !k.startsWith "DRY_RUN" then
        { ud0 with fields := ud0.fields ++ [(k, all_orgs_value)] }
      else ud0
  | none => ud0

/-- The per-identity body of the `for email in in_both` loop of
`sync_persons`.  `putOk` is the service oracle for the
`api_put(f"persons/{id}", update_data)` call.  Returns the
`change_record` and the network write issued, if any. -/
def sync_one_matched (dryRun : Bool) (putOk : Int → UpdateData → Bool)
    (all_orgs_field_key : Option String)
    (pd_org_by_name : List (String × PDOrg))
    (pd_org_by_id : List (PDId × PDOrg))
    (email : String) (postgres_user : PGUser) (pd_person : PDPerson) :
    ChangeRecord × Option (Int × UpdateData) :=
  let all_orgs_value := allOrgsValue postgres_user
  let current_org_id := pd_person.org_id
  let current_org_name := currentOrgName pd_org_by_id current_org_id
  let r := resolveOrg pd_org_by_name current_org_id current_org_name
             postgres_user
  let new_org_id := r.1
  let new_org_name := r.2.1
  let org_action := r.2.2
  let ud : UpdateData :=
    build_update_data all_orgs_field_key current_org_id new_org_id
      all_orgs_value
  let base : ChangeRecord :=
    { email := email, name := pd_person.name, pd_person_id := pd_person.id,
      current_org := current_org_name, new_org := new_org_name,
      org_action := org_action, all_orgs := some all_orgs_value,
      status := "pending", error := none }
  if !ud.isEmpty then
    if dryRun then ({ base with status := "dry_run" }, none)
    else if putOk pd_person.id ud then
      ({ base with status := "success" }, some (pd_person.id, ud))
    else
      ({ base with status := "failed", error := some "api response" },
       some (pd_person.id, ud))
  else ({ base with status := "skipped" }, none)

/-- The per-identity body of the Pipedrive-only tagging loop of
`sync_persons`: tags the contact `'not in db'` through the DB-status
field when that field key is truthy. -/
def tag_one_pd_only (dryRun : Bool) (putOk : Int → UpdateData → Bool)
    (db_status_field_key : Option String)
    (pd_org_by_id : List (PDId × PDOrg))
    (email : String) (pd_person : PDPerson) :
    ChangeRecord × Option (Int × UpdateData) :=
  let base : ChangeRecord :=
    { email := email, name := pd_person.name, pd_person_id := pd_person.id,
      current_org :=
        (pd_person.org_id.bind (alookup pd_org_by_id)).map PDOrg.name,
      new_org := none, org_action := "tagged_not_in_db", all_orgs := none,
      status := "pending", error := none }
  if dryRun then ({ base with status := "dry_run" }, none)
  else
    match db_status_field_key with
    | some k =>
        if k ≠ "" then
          let ud : UpdateData := ⟨none, [(k, "not in db")]⟩
          if putOk pd_person.id ud then
            ({ base with status := "success" }, some (pd_person.id, ud))
          else
            ({ base with status := "failed", error := some "api response" },
             some (pd_person.id, ud))
        else (base, none)
    | none => (base, none)

/-- One iteration of the `for email in in_both` loop: look the identity
up in both dicts, process it, and append the change record and any
network write.  The fallthrough is unreachable, since membership in
`in_both` means the email is a key of both dicts. -/
def matched_step (dryRun : Bool) (putOk : Int → UpdateData → Bool)
    (all_orgs_field_key : Option String)
    (postgres_users : List (String × PGUser))
    (pd_person_by_email : List (String × PDPerson))
    (pd_org_by_name : List (String × PDOrg))
    (pd_org_by_id : List (PDId × PDOrg))
    (acc : List ChangeRecord × List (Int × UpdateData)) (email : String) :
    List ChangeRecord × List (Int × UpdateData) :=
  match alookup postgres_users email, alookup pd_person_by_email email with
  | some pg, some pd =>
      let rw := sync_one_matched dryRun putOk all_orgs_field_key
                  pd_org_by_name pd_org_by_id email pg pd
      (acc.1 ++ [rw.1], acc.2 ++ rw.2.toList)
  | _, _ => acc

/-- One iteration of the `for email in only_pipedrive` loop. -/
def tag_step (dryRun : Bool) (putOk : Int → UpdateData → Bool)
    (db_status_field_key : Option String)
    (pd_person_by_email : List (String × PDPerson))
    (pd_org_by_id : List (PDId × PDOrg))
    (acc : List ChangeRecord × List (Int × UpdateData)) (email : String) :
    List ChangeRecord × List (Int × UpdateData) :=
  match alookup pd_person_by_email email with
  | some pd =>
      let rw := tag_one_pd_only dryRun putOk db_status_field_key
                  pd_org_by_id email pd
      (acc.1 ++ [rw.1], acc.2 ++ rw.2.toList)
  | none => acc

/-- The emails present in both systems
(`in_both = postgres_emails & pipedrive_emails`; the dict insertion
order stands in for the arbitrary Python set order). -/
def inBoth (postgres_users : List (String × PGUser))
    (pd_person_by_email : List (String × PDPerson)) : List String :=
  (keysOf postgres_users).filter (fun e => hasKey pd_person_by_email e)

/-- The Pipedrive-only emails
(`only_pipedrive = pipedrive_emails - postgres_emails`). -/
def onlyPipedrive (postgres_users : List (String × PGUser))
    (pd_person_by_email : List (String × PDPerson)) : List String :=
  (keysOf pd_person_by_email).filter (fun e => !hasKey postgres_users e)

/-- `sync_persons`: process every identity in both systems, then tag
every Pipedrive-only identity.  Returns the `changes` list and every
`api_put` issued. -/
def sync_persons (dryRun : Bool) (putOk : Int → UpdateData → Bool)
    (postgres_users : List (String × PGUser))
    (pd_person_by_email : List (String × PDPerson))
    (pd_org_by_name : List (String × PDOrg))
    (pd_org_by_id : List (PDId × PDOrg))
    (all_orgs_field_key db_status_field_key : Option String) :
    List ChangeRecord × List (Int × UpdateData) :=
  let step1 := (inBoth postgres_users pd_person_by_email).foldl
    (matched_step dryRun putOk all_orgs_field_key postgres_users
      pd_person_by_email pd_org_by_name pd_org_by_id)
    ([], [])
  (onlyPipedrive postgres_users pd_person_by_email).foldl
    (tag_step dryRun putOk db_status_field_key pd_person_by_email
      pd_org_by_id)
    step1

end Sync

namespace Enrich

open PD

/-- A payload value in `pipedrive_enrichment.py`: a CSV-derived string
(possibly `None`) or the numeric label option id. -/
inductive PVal : Type
  | str (s : Option String)
  | label (id : Int)
deriving DecidableEq, Repr

/-- The payload dict literal built for every Postgres row in `main`:
`{"name": .., USER_ID_FIELD: .., ALL_ORGS_FIELD: .., "label": ..}`. -/
def buildPayload (kUid kOrgs : String) (labelId : Int) (row : ERow) :
    List (String × PVal) :=
  [("name", .str row.full_name),
   (kUid, .str row.user_id),
   (kOrgs, .str row.all_ligr_organizations),
   ("label", .label labelId)]

/-- A network mutation issued by `main`: `api_put(f"persons/{id}", ..)`
or `api_post("persons", ..)`. -/
inductive EOp : Type
  | update (personId : Int) (payload : List (String × PVal))
  | create (payload : List (String × PVal))
deriving DecidableEq, Repr

/-- The body of the `for email, row in postgres.items()` loop of
`main`: update the matched person, else add `payload["email"] = email`
and create. -/
def enrich_one (kUid kOrgs : String) (labelId : Int)
    (email_index : List (String × PDPerson)) (email : String) (row : ERow) :
    EOp :=
  let payload := buildPayload kUid kOrgs labelId row
  match alookup email_index email with
  | some person => .update person.id payload
  | none => .create (aset payload "email" (.str (some email)))

/-- The full mutation sequence of `main` over the loaded Postgres
dict. -/
def enrich_main (kUid kOrgs : String) (labelId : Int)
    (email_index : List (String × PDPerson))
    (postgres : List (String × ERow)) : List EOp :=
  postgres.map (fun kv => enrich_one kUid kOrgs labelId email_index kv.1 kv.2)

end Enrich

/-! ### Association-list lemmas -/

namespace PD

variable {κ V : Type} [DecidableEq κ]

theorem alookup_aset_self (m : List (κ × V)) (k : κ) (v : V) :
    alookup (aset m k v) k = some v := by
  induction m with
  | nil => simp [aset, alookup]
  | cons kv rest ih =>
      by_cases h : kv.1 = k
      · simp [aset, h, alookup]
      · simp [aset, h, alookup, ih]

theorem alookup_aset_of_ne (m : List (κ × V)) {k k' : κ} (v : V)
    (h : k ≠ k') : alookup (aset m k v) k' = alookup m k' := by
  induction m with
  | nil => simp [aset, alookup, h]
  | cons kv rest ih =>
      by_cases hk : kv.1 = k
      · simp [aset, hk, alookup, h]
      · by_cases hk' : kv.1 = k'
        · simp [aset, hk, alookup, hk', Ne.symm h]
        · simp [aset, hk, alookup, hk', ih]

theorem hasKey_eq_isSome (m : List (κ × V)) (k : κ) :
    hasKey m k = (alookup m k).isSome := by
  induction m with
  | nil => simp [hasKey, alookup]
  | cons kv rest ih =>
      by_cases h : kv.1 = k
      · simp [hasKey, alookup, h]
      · simp [hasKey, alookup, h, ← ih]

theorem alookup_isSome_of_hasKey {m : List (κ × V)} {k : κ}
    (h : hasKey m k = true) : (alookup m k).isSome := by
  rwa [hasKey_eq_isSome] at h

theorem mem_of_alookup_eq_some {m : List (κ × V)} {k : κ} {v : V}
    (h : alookup m k = some v) : (k, v) ∈ m := by
  induction m with
  | nil => simp [alookup] at h
  | cons kv rest ih =>
      obtain ⟨k1, v1⟩ := kv
      by_cases hk : k1 = k
      · subst hk
        simp [alookup] at h
        subst h
        exact List.mem_cons_self _ _
      · simp [alookup, hk] at h
        exact List.mem_cons_of_mem _ (ih h)

theorem not_mem_keysOf_of_not_hasKey {m : List (κ × V)} {k : κ}
    (h : hasKey m k = false) : k ∉ keysOf m := by
  intro hmem
  rcases List.mem_map.1 hmem with ⟨kv, hkv, hfst⟩
  have : m.any (fun kv => kv.1 = k) = true :=
    List.any_eq_true.2 ⟨kv, hkv, by simp [hfst]⟩
  rw [hasKey] at h
  simp [this] at h

theorem keysOf_aset_of_hasKey {m : List (κ × V)} {k : κ} (v : V)
    (h : hasKey m k = true) : keysOf (aset m k v) = keysOf m := by
  induction m with
  | nil => simp [hasKey] at h
  | cons kv rest ih =>
      by_cases hk : kv.1 = k
      · simp [aset, hk, keysOf]
      · have h' : hasKey rest k = true := by
          rw [hasKey] at h ⊢
          simpa [hk] using h
        simp [aset, hk, keysOf] at ih ⊢
        exact ih h'

theorem keysOf_aset_of_not_hasKey {m : List (κ × V)} {k : κ} (v : V)
    (h : hasKey m k = false) : keysOf (aset m k v) = keysOf m ++ [k] := by
  induction m with
  | nil => simp [aset, keysOf]
  | cons kv rest ih =>
      have hk : kv.1 ≠ k := by
        intro he
        rw [hasKey] at h
        simp [he] at h
      have h' : hasKey rest k = false := by
        rw [hasKey] at h ⊢
        simpa [hk] using h
      simp [aset, hk, keysOf] at ih ⊢
      exact ih h'

theorem nodup_keysOf_aset {m : List (κ × V)} {k : κ} (v : V)
    (h : (keysOf m).Nodup) : (keysOf (aset m k v)).Nodup := by
  by_cases hk : hasKey m k = true
  · rwa [keysOf_aset_of_hasKey v hk]
  · rw [keysOf_aset_of_not_hasKey v (by simpa using hk)]
    refine List.Nodup.append h (List.nodup_singleton k) ?_
    intro x hx hx'
    rcases List.mem_singleton.1 hx' with rfl
    exact not_mem_keysOf_of_not_hasKey (by simpa using hk) hx

end PD

/-! ### Pagination -/

namespace PD

/-- After any sequence of fully successful pages that announce more
items, a page reporting `success=false` stops the pagination, and the
items fetched so far are returned (no abort, no discard); pages the
service would have returned afterwards are never consulted. -/
theorem fetch_stops_at_failure {α : Type} (good : List (Page α))
    (bad : Page α) (rest : List (Page α)) (acc : List α)
    (hgood : ∀ p ∈ good, p.success = true ∧ p.data ≠ [] ∧
      p.more_items_in_collection = true)
    (hbad : bad.success = false) :
    fetch_all_paginated (good ++ bad :: rest) acc
      = acc ++ (good.map Page.data).flatten := by
  induction good generalizing acc with
  | nil => simp [fetch_all_paginated, hbad]
  | cons p good' ih =>
      obtain ⟨hs, hd, hm⟩ := hgood p (List.mem_cons_self p good')
      have hne : p.data.isEmpty = false := by
        cases hp : p.data with
        | nil => exact absurd hp hd
        | cons a l => simp [hp]
      have hstep : fetch_all_paginated ((p :: good') ++ bad :: rest) acc
          = fetch_all_paginated (good' ++ bad :: rest) (acc ++ p.data) := by
        simp [fetch_all_paginated, hs, hne, hm]
      rw [hstep,
        ih (acc ++ p.data) (fun q hq => hgood q (List.mem_cons_of_mem _ hq))]
      simp [List.append_assoc]

end PD

/-! ### Loader characterization (sync variant) -/

namespace Sync

open PD

/-- The normalized identity key of a CSV row. -/
def rowEmail (r : CSVRow) : String := pyStrip (pyLower r.email)

/-- The effect of one CSV row on the dict entry for its own key:
create the entry from the row's scalars if absent, then accumulate the
row's organization if its id is new. -/
def entry_step (u? : Option PGUser) (r : CSVRow) : Option PGUser :=
  let u0 := u?.getD ⟨pyStrip r.fullName, r.userId, []⟩
  some { u0 with orgs := addOrgIfNew u0.orgs (pyStrip r.orgName) r.orgId }

/-- The effect of one CSV row on an accumulated org list. -/
def orgs_step (os : List PGOrg) (r : CSVRow) : List PGOrg :=
  addOrgIfNew os (pyStrip r.orgName) r.orgId

theorem load_row_users_lookup (acc : PGData) (r : CSVRow) (key : String) :
    alookup (load_row acc r).users key =
      if rowEmail r = key then entry_step (alookup acc.users key) r
      else alookup acc.users key := by
  by_cases h : rowEmail r = key
  · subst h
    simp only [load_row, rowEmail, entry_step]
    rw [alookup_aset_self]
    cases halt : alookup acc.users (pyStrip (pyLower r.email)) <;>
      simp [halt, Option.getD]
  · simp only [load_row, if_neg h]
    exact alookup_aset_of_ne _ _ h

theorem load_foldl_users_lookup (rows : List CSVRow) (acc : PGData)
    (key : String) :
    alookup ((rows.foldl load_row acc).users) key =
      (rows.filter (fun r => rowEmail r = key)).foldl entry_step
        (alookup acc.users key) := by
  induction rows generalizing acc with
  | nil => simp
  | cons r rest ih =>
      rw [List.foldl_cons, ih (load_row acc r), load_row_users_lookup]
      by_cases h : rowEmail r = key
      · simp [List.filter_cons, h]
      · simp [List.filter_cons, h]

theorem entry_foldl_some (l : List CSVRow) (u : PGUser) :
    l.foldl entry_step (some u) =
      some ⟨u.name, u.user_id, l.foldl orgs_step u.orgs⟩ := by
  induction l generalizing u with
  | nil => simp
  | cons r rest ih =>
      simp only [List.foldl_cons, entry_step, Option.getD, orgs_step]
      exact ih _

theorem entry_foldl_eq (l : List CSVRow) :
    l.foldl entry_step none =
      match l with
      | [] => none
      | r :: _ => some ⟨pyStrip r.fullName, r.userId, l.foldl orgs_step []⟩ := by
  cases l with
  | nil => simp
  | cons r rest =>
      simp only [List.foldl_cons, entry_step, Option.getD, orgs_step]
      exact entry_foldl_some rest _

/-- Full characterization of a loaded user entry: present iff some row
bears the key; the scalars come from the *first* such row; the org list
is the id-deduplicating accumulation over all such rows in order. -/
theorem load_lookup_eq (rows : List CSVRow) (key : String) :
    alookup (load_postgres_data rows).users key =
      match rows.filter (fun r => rowEmail r = key) with
      | [] => none
      | r :: _ =>
          some ⟨pyStrip r.fullName, r.userId,
            (rows.filter (fun r => rowEmail r = key)).foldl orgs_step []⟩ := by
  rw [load_postgres_data, load_foldl_users_lookup]
  simpa using entry_foldl_eq (rows.filter (fun r => rowEmail r = key))

/-- Key uniqueness of the loaded user dict. -/
theorem load_users_nodup (rows : List CSVRow) :
    (keysOf (load_postgres_data rows).users).Nodup := by
  suffices h : ∀ acc : PGData, (keysOf acc.users).Nodup →
      (keysOf ((rows.foldl load_row acc).users)).Nodup by
    exact h ⟨[], []⟩ (by simp [keysOf])
  induction rows with
  | nil => intro acc h; simpa using h
  | cons r rest ih =>
      intro acc h
      exact ih _ (nodup_keysOf_aset _ h)

/-- Key uniqueness of the loaded org dict. -/
theorem load_orgs_nodup (rows : List CSVRow) :
    (keysOf (load_postgres_data rows).orgs).Nodup := by
  suffices h : ∀ acc : PGData, (keysOf acc.orgs).Nodup →
      (keysOf ((rows.foldl load_row acc).orgs)).Nodup by
    exact h ⟨[], []⟩ (by simp [keysOf])
  induction rows with
  | nil => intro acc h; simpa using h
  | cons r rest ih =>
      intro acc h
      refine ih _ ?_
      simp only [load_row]
      split
      · exact h
      · exact nodup_keysOf_aset _ h

/-- The accumulated org ids are always distinct. -/
theorem orgs_foldl_ids_nodup (l : List CSVRow) (os : List PGOrg)
    (h : (os.map PGOrg.id).Nodup) :
    ((l.foldl orgs_step os).map PGOrg.id).Nodup := by
  induction l generalizing os with
  | nil => simpa using h
  | cons r rest ih =>
      refine ih _ ?_
      simp only [orgs_step, addOrgIfNew]
      split
      · exact h
      · rename_i hany
        simp only [List.map_append, List.map_cons, List.map_nil]
        refine List.Nodup.append h (List.nodup_singleton _) ?_
        intro x hx hx'
        rcases List.mem_singleton.1 hx' with rfl
        rcases List.mem_map.1 hx with ⟨o, ho, hid⟩
        exact hany (List.any_eq_true.2 ⟨o, ho, by simp [hid]⟩)

end Sync

/-! ### Loader characterization (enrichment variant) -/

namespace Enrich

open PD

theorem getLast?_cons_elim {α : Type} (r : α) (l : List α) :
    (r :: l).getLast? = (l.getLast?).elim (some r) some := by
  induction l generalizing r with
  | nil => simp
  | cons a l' ih =>
      rw [List.getLast?_cons_cons, ih a]
      cases h : l'.getLast? with
      | none =>
          have : (a :: l').getLast? = some a := by rw [ih a, h]; rfl
          simp [this]
      | some x =>
          have : (a :: l').getLast? = some x := by rw [ih a, h]; rfl
          simp [this]

theorem load_foldl_lookup (rows : List ERow) (acc : List (String × ERow))
    (key : String) (hkey : key ≠ "") :
    alookup (rows.foldl load_row acc) key =
      ((rows.filter (fun r => rowKey r = key)).getLast?).elim
        (alookup acc key) some := by
  induction rows generalizing acc with
  | nil => simp
  | cons r rest ih =>
      have hfilter : (r :: rest).filter (fun r => rowKey r = key)
          = if rowKey r = key then
              r :: rest.filter (fun r => rowKey r = key)
            else rest.filter (fun r => rowKey r = key) := by
        by_cases h : rowKey r = key <;> simp [List.filter_cons, h]
      by_cases h : rowKey r = key
      · have hne : rowKey r ≠ "" := by rw [h]; exact hkey
        have hload : load_row acc r = aset acc key r := by
          simp [load_row, h, hkey]
        rw [List.foldl_cons, hload, ih (aset acc key r), alookup_aset_self,
          hfilter, if_pos h, getLast?_cons_elim]
        cases (rest.filter (fun r => rowKey r = key)).getLast? <;> simp
      · rw [List.foldl_cons, hfilter, if_neg h]
        by_cases he : rowKey r = ""
        · have hload : load_row acc r = acc := by simp [load_row, he]
          rw [hload, ih acc]
        · have hload : load_row acc r = aset acc (rowKey r) r := by
            simp [load_row, he]
          rw [hload, ih (aset acc (rowKey r) r),
            alookup_aset_of_ne _ _ h]

/-- Last-write-wins characterization of the enrichment loader. -/
theorem enrich_load_lookup (rows : List ERow) (key : String)
    (hkey : key ≠ "") :
    alookup (load_postgres_data rows) key =
      (rows.filter (fun r => rowKey r = key)).getLast? := by
  rw [load_postgres_data, load_foldl_lookup rows [] key hkey]
  cases (rows.filter (fun r => rowKey r = key)).getLast? <;> simp [alookup]

/-- Key uniqueness of the enrichment loader's dict. -/
theorem enrich_load_nodup (rows : List ERow) :
    (keysOf (load_postgres_data rows)).Nodup := by
  suffices h : ∀ acc : List (String × ERow), (keysOf acc).Nodup →
      (keysOf (rows.foldl load_row acc)).Nodup by
    exact h [] (by simp [keysOf])
  induction rows with
  | nil => intro acc h; simpa using h
  | cons r rest ih =>
      intro acc h
      refine ih _ ?_
      simp only [load_row]
      split
      · exact h
      · exact nodup_keysOf_aset _ h

end Enrich

/-! ### Per-identity update-path lemmas -/

namespace Sync

open PD

theorem sync_one_matched_fst_email (dryRun : Bool)
    (putOk : Int → UpdateData → Bool) (key : Option String)
    (byName : List (String × PDOrg)) (byId : List (PDId × PDOrg))
    (email : String) (u : PGUser) (p : PDPerson) :
    (sync_one_matched dryRun putOk key byName byId email u p).1.email
      = email := by
  simp only [sync_one_matched]
  repeat' split
  all_goals rfl

theorem sync_one_matched_fst_id (dryRun : Bool)
    (putOk : Int → UpdateData → Bool) (key : Option String)
    (byName : List (String × PDOrg)) (byId : List (PDId × PDOrg))
    (email : String) (u : PGUser) (p : PDPerson) :
    (sync_one_matched dryRun putOk key byName byId email u p).1.pd_person_id
      = p.id := by
  simp only [sync_one_matched]
  repeat' split
  all_goals rfl

theorem tag_one_fst_email (dryRun : Bool)
    (putOk : Int → UpdateData → Bool) (key : Option String)
    (byId : List (PDId × PDOrg)) (email : String) (p : PDPerson) :
    (tag_one_pd_only dryRun putOk key byId email p).1.email = email := by
  simp only [tag_one_pd_only]
  repeat' split
  all_goals rfl

theorem tag_one_fst_id (dryRun : Bool)
    (putOk : Int → UpdateData → Bool) (key : Option String)
    (byId : List (PDId × PDOrg)) (email : String) (p : PDPerson) :
    (tag_one_pd_only dryRun putOk key byId email p).1.pd_person_id
      = p.id := by
  simp only [tag_one_pd_only]
  repeat' split
  all_goals rfl

theorem sync_one_matched_dry_write (putOk : Int → UpdateData → Bool)
    (key : Option String) (byName : List (String × PDOrg))
    (byId : List (PDId × PDOrg)) (email : String) (u : PGUser)
    (p : PDPerson) :
    (sync_one_matched true putOk key byName byId email u p).2 = none := by
  simp only [sync_one_matched]
  repeat' split
  all_goals first | rfl | simp_all

theorem tag_one_dry_write (putOk : Int → UpdateData → Bool)
    (key : Option String) (byId : List (PDId × PDOrg)) (email : String)
    (p : PDPerson) :
    (tag_one_pd_only true putOk key byId email p).2 = none := by
  simp only [tag_one_pd_only]
  repeat' split
  all_goals first | rfl | simp_all

theorem sync_one_matched_dry_status (putOk : Int → UpdateData → Bool)
    (key : Option String) (byName : List (String × PDOrg))
    (byId : List (PDId × PDOrg)) (email : String) (u : PGUser)
    (p : PDPerson) :
    (sync_one_matched true putOk key byName byId email u p).1.status
        = "dry_run" ∨
      (sync_one_matched true putOk key byName byId email u p).1.status
        = "skipped" := by
  simp only [sync_one_matched]
  repeat' split
  all_goals simp_all

theorem tag_one_dry_status (putOk : Int → UpdateData → Bool)
    (key : Option String) (byId : List (PDId × PDOrg)) (email : String)
    (p : PDPerson) :
    (tag_one_pd_only true putOk key byId email p).1.status = "dry_run" := by
  simp only [tag_one_pd_only]
  repeat' split
  all_goals first | rfl | simp_all

theorem build_update_data_org_id_self (key : Option String)
    (cur : Option PDId) (v : String) :
    (build_update_data key cur cur v).org_id = none := by
  simp only [build_update_data]
  repeat' split
  all_goals simp_all

/-- Every write issued by the update path targets the matched person
and carries exactly the computed `update_data`. -/
theorem sync_one_matched_write_shape (dryRun : Bool)
    (putOk : Int → UpdateData → Bool) (key : Option String)
    (byName : List (String × PDOrg)) (byId : List (PDId × PDOrg))
    (email : String) (u : PGUser) (p : PDPerson) :
    (sync_one_matched dryRun putOk key byName byId email u p).2 = none ∨
      (sync_one_matched dryRun putOk key byName byId email u p).2
        = some (p.id, build_update_data key p.org_id
            (resolveOrg byName p.org_id (currentOrgName byId p.org_id) u).1
            (allOrgsValue u)) := by
  simp only [sync_one_matched]
  repeat' split
  all_goals simp

theorem sync_one_matched_kept (dryRun : Bool)
    (putOk : Int → UpdateData → Bool) (key : Option String)
    (byName : List (String × PDOrg)) (byId : List (PDId × PDOrg))
    (email : String) (u : PGUser) (p : PDPerson) (n : String)
    (hname : currentOrgName byId p.org_id = some n) (hn : n ≠ "")
    (hcont : pyLower n ∈ u.orgs.map (fun o => pyLower o.name)) :
    (sync_one_matched dryRun putOk key byName byId email u p).1.org_action
        = "kept" ∧
      ∀ pid ud,
        (sync_one_matched dryRun putOk key byName byId email u p).2
            = some (pid, ud) → ud.org_id = none := by
  have hcm : currentMatches (currentOrgName byId p.org_id) u = true := by
    rw [hname]
    simp only [currentMatches]
    simp [hn, hcont]
  have hres : resolveOrg byName p.org_id (currentOrgName byId p.org_id) u
      = (p.org_id, currentOrgName byId p.org_id, "kept") := by
    simp [resolveOrg, hcm]
  constructor
  · simp only [sync_one_matched, hres]
    repeat' split
    all_goals rfl
  · intro pid ud h
    rcases sync_one_matched_write_shape dryRun putOk key byName byId
        email u p with h0 | h0
    · rw [h0] at h
      exact absurd h (by simp)
    · rw [h0] at h
      injection h with h1
      injection h1 with h2 h3
      subst h3
      rw [hres]
      exact build_update_data_org_id_self key p.org_id (allOrgsValue u)

theorem sync_one_matched_usable_key_write
    (putOk : Int → UpdateData → Bool) (byName : List (String × PDOrg))
    (byId : List (PDId × PDOrg)) (email : String) (u : PGUser)
    (p : PDPerson) (k : String) (hk : k ≠ "")
    (hpre : k.startsWith "DRY_RUN" = false) :
    (sync_one_matched false putOk (some k) byName byId email u p).2.isSome
        = true ∧
      (sync_one_matched false putOk (some k) byName byId email u p).1.status
        ≠ "skipped" := by
  have hfields : ∀ cur new v,
      (build_update_data (some k) cur new v).fields = [(k, v)] := by
    intro cur new v
    simp [build_update_data, hk, hpre]
  simp only [sync_one_matched, hk, hpre]
  repeat' split
  all_goals simp_all [UpdateData.isEmpty, hfields]

theorem sync_one_matched_write_iff_not_skipped
    (putOk : Int → UpdateData → Bool) (key : Option String)
    (byName : List (String × PDOrg)) (byId : List (PDId × PDOrg))
    (email : String) (u : PGUser) (p : PDPerson) :
    (sync_one_matched false putOk key byName byId email u p).2 = none
      ↔ (sync_one_matched false putOk key byName byId email u p).1.status
          = "skipped" := by
  simp only [sync_one_matched]
  repeat' split
  all_goals simp_all

/-- `sync_persons` never reads the contact's current custom-field
values, so its decision and its write are identical whatever the CRM
currently stores in the enrichment/status fields. -/
theorem sync_one_matched_ignores_custom_fields (dryRun : Bool)
    (putOk : Int → UpdateData → Bool) (key : Option String)
    (byName : List (String × PDOrg)) (byId : List (PDId × PDOrg))
    (email : String) (u : PGUser) (p : PDPerson)
    (cf : List (String × String)) :
    sync_one_matched dryRun putOk key byName byId email u
        { p with customFields := cf }
      = sync_one_matched dryRun putOk key byName byId email u p := rfl

end Sync

/-! ### Enrichment mutation lemmas -/

namespace Enrich

open PD

theorem buildPayload_keys (kUid kOrgs : String) (labelId : Int)
    (row : ERow) :
    (buildPayload kUid kOrgs labelId row).map Prod.fst
      = ["name", kUid, kOrgs, "label"] := rfl

theorem enrich_one_matched (kUid kOrgs : String) (labelId : Int)
    (idx : List (String × PDPerson)) (email : String) (row : ERow)
    (p : PDPerson) (h : alookup idx email = some p) :
    enrich_one kUid kOrgs labelId idx email row
      = .update p.id (buildPayload kUid kOrgs labelId row) := by
  simp [enrich_one, h]

theorem enrich_one_create (kUid kOrgs : String) (labelId : Int)
    (idx : List (String × PDPerson)) (email : String) (row : ERow)
    (h : alookup idx email = none) (h1 : kUid ≠ "email")
    (h2 : kOrgs ≠ "email") :
    enrich_one kUid kOrgs labelId idx email row
      = .create [("name", .str row.full_name),
          (kUid, .str row.user_id),
          (kOrgs, .str row.all_ligr_organizations),
          ("label", .label labelId),
          ("email", .str (some email))] := by
  have hname : "name" ≠ "email" := by decide
  have hlabel : "label" ≠ "email" := by decide
  simp [enrich_one, h, buildPayload, aset, h1, h2, hname, hlabel]

theorem payload_no_key (pl : List (String × PVal)) (k : String)
    (h : k ∉ pl.map Prod.fst) : hasKey pl k = false := by
  cases hk : hasKey pl k
  · rfl
  · rw [hasKey] at hk
    rcases List.any_eq_true.1 hk with ⟨kv, hkv, hfst⟩
    exact absurd (List.mem_map.2 ⟨kv, hkv, by simpa using hfst⟩) h

end Enrich

/-! ### Organization pre-creation lemmas -/

namespace Sync

open PD

theorem create_fold_index_preserve (dryRun : Bool)
    (createOrg : String → Option PDOrg) (miss : List (String × PGOrg))
    (st : OrgCreateResult) (k : String)
    (h : ∀ kv ∈ miss, kv.1 ≠ k) :
    alookup
        (miss.foldl (create_org_step dryRun createOrg) st).index k
      = alookup st.index k := by
  induction miss generalizing st with
  | nil => rfl
  | cons kv rest ih =>
      have hk : kv.1 ≠ k := h kv (List.mem_cons_self kv rest)
      rw [List.foldl_cons,
        ih _ (fun kv' h' => h kv' (List.mem_cons_of_mem _ h'))]
      simp only [create_org_step]
      repeat' split
      all_goals simp [alookup_aset_of_ne _ _ hk]

theorem create_fold_index_hit_dry (createOrg : String → Option PDOrg)
    (miss : List (String × PGOrg)) (st : OrgCreateResult) (k : String)
    (org : PGOrg) (hnd : (keysOf miss).Nodup) (hmem : (k, org) ∈ miss) :
    alookup (miss.foldl (create_org_step true createOrg) st).index k
      = some ⟨PDId.str ("DRY_RUN_" ++ toString org.id), org.name⟩ := by
  induction miss generalizing st with
  | nil => simp at hmem
  | cons kv rest ih =>
      have hnd2 : kv.1 ∉ keysOf rest ∧ (keysOf rest).Nodup := by
        rw [keysOf, List.map_cons] at hnd
        exact ⟨(List.nodup_cons.1 hnd).1, (List.nodup_cons.1 hnd).2⟩
      rcases List.mem_cons.1 hmem with heq | htail
      · subst heq
        have hrest : ∀ kv' ∈ rest, kv'.1 ≠ k := by
          intro kv' h' he
          exact hnd2.1 (List.mem_map.2 ⟨kv', h', he⟩)
        rw [List.foldl_cons, create_fold_index_preserve _ _ _ _ _ hrest]
        simp [create_org_step, alookup_aset_self]
      · rw [List.foldl_cons]
        exact ih _ hnd2.2 htail

theorem create_fold_index_hit_live (createOrg : String → Option PDOrg)
    (miss : List (String × PGOrg)) (st : OrgCreateResult) (k : String)
    (org : PGOrg) (newOrg : PDOrg) (hnd : (keysOf miss).Nodup)
    (hmem : (k, org) ∈ miss) (hco : createOrg org.name = some newOrg) :
    alookup (miss.foldl (create_org_step false createOrg) st).index k
      = some newOrg := by
  induction miss generalizing st with
  | nil => simp at hmem
  | cons kv rest ih =>
      have hnd2 : kv.1 ∉ keysOf rest ∧ (keysOf rest).Nodup := by
        rw [keysOf, List.map_cons] at hnd
        exact ⟨(List.nodup_cons.1 hnd).1, (List.nodup_cons.1 hnd).2⟩
      rcases List.mem_cons.1 hmem with heq | htail
      · subst heq
        have hrest : ∀ kv' ∈ rest, kv'.1 ≠ k := by
          intro kv' h' he
          exact hnd2.1 (List.mem_map.2 ⟨kv', h', he⟩)
        rw [List.foldl_cons, create_fold_index_preserve _ _ _ _ _ hrest]
        simp [create_org_step, hco, alookup_aset_self]
      · rw [List.foldl_cons]
        exact ih _ hnd2.2 htail

theorem create_fold_dry_posts (createOrg : String → Option PDOrg)
    (miss : List (String × PGOrg)) (st : OrgCreateResult) :
    (miss.foldl (create_org_step true createOrg) st).posts = st.posts := by
  induction miss generalizing st with
  | nil => rfl
  | cons kv rest ih =>
      rw [List.foldl_cons, ih]
      rfl

theorem create_fold_dry_created (createOrg : String → Option PDOrg)
    (miss : List (String × PGOrg)) (st : OrgCreateResult) :
    (miss.foldl (create_org_step true createOrg) st).created
      = st.created ++ miss.map (fun kv => CreatedOrg.dry kv.2) := by
  induction miss generalizing st with
  | nil => simp
  | cons kv rest ih =>
      rw [List.foldl_cons, ih]
      simp [create_org_step]

/-- The keys of the missing-org worklist are distinct whenever the
Postgres org dict has distinct keys. -/
theorem missing_nodup (postgres_orgs : List (String × PGOrg))
    (pd_org_by_name : List (String × PDOrg))
    (h : (keysOf postgres_orgs).Nodup) :
    (keysOf (postgres_orgs.filter
      (fun kv => !hasKey pd_org_by_name kv.1))).Nodup := by
  exact List.Nodup.sublist
    (List.Sublist.map Prod.fst (List.filter_sublist postgres_orgs)) h

end Sync

/-! ### Person-sync fold lemmas -/

namespace PD

theorem hasKey_of_mem_keysOf {κ V : Type} [DecidableEq κ]
    {m : List (κ × V)} {k : κ} (h : k ∈ keysOf m) : hasKey m k = true := by
  rcases List.mem_map.1 h with ⟨kv, hkv, hfst⟩
  exact List.any_eq_true.2 ⟨kv, hkv, by simp [hfst]⟩

end PD

namespace Sync

open PD

theorem matched_fold_emails (dryRun : Bool)
    (putOk : Int → UpdateData → Bool) (key : Option String)
    (pu : List (String × PGUser)) (pb : List (String × PDPerson))
    (byName : List (String × PDOrg)) (byId : List (PDId × PDOrg))
    (emails : List String) (acc : List ChangeRecord × List (Int × UpdateData))
    (h : ∀ e ∈ emails, hasKey pu e = true ∧ hasKey pb e = true) :
    ((emails.foldl
        (matched_step dryRun putOk key pu pb byName byId) acc).1).map
          ChangeRecord.email
      = acc.1.map ChangeRecord.email ++ emails := by
  induction emails generalizing acc with
  | nil => simp
  | cons e rest ih =>
      obtain ⟨h1, h2⟩ := h e (List.mem_cons_self e rest)
      obtain ⟨pg, hpg⟩ :=
        Option.isSome_iff_exists.1 (alookup_isSome_of_hasKey h1)
      obtain ⟨pd, hpd⟩ :=
        Option.isSome_iff_exists.1 (alookup_isSome_of_hasKey h2)
      have hstep : matched_step dryRun putOk key pu pb byName byId acc e
          = (acc.1 ++
              [(sync_one_matched dryRun putOk key byName byId e pg pd).1],
             acc.2 ++
              (sync_one_matched dryRun putOk key byName byId e pg pd).2.toList) := by
        simp [matched_step, hpg, hpd]
      rw [List.foldl_cons, hstep,
        ih _ (fun e' h' => h e' (List.mem_cons_of_mem _ h'))]
      simp [sync_one_matched_fst_email]

theorem tag_fold_emails (dryRun : Bool)
    (putOk : Int → UpdateData → Bool) (key : Option String)
    (pb : List (String × PDPerson)) (byId : List (PDId × PDOrg))
    (emails : List String) (acc : List ChangeRecord × List (Int × UpdateData))
    (h : ∀ e ∈ emails, hasKey pb e = true) :
    ((emails.foldl (tag_step dryRun putOk key pb byId) acc).1).map
          ChangeRecord.email
      = acc.1.map ChangeRecord.email ++ emails := by
  induction emails generalizing acc with
  | nil => simp
  | cons e rest ih =>
      obtain ⟨pd, hpd⟩ :=
        Option.isSome_iff_exists.1 (alookup_isSome_of_hasKey
          (h e (List.mem_cons_self e rest)))
      have hstep : tag_step dryRun putOk key pb byId acc e
          = (acc.1 ++ [(tag_one_pd_only dryRun putOk key byId e pd).1],
             acc.2 ++ (tag_one_pd_only dryRun putOk key byId e pd).2.toList) := by
        simp [tag_step, hpd]
      rw [List.foldl_cons, hstep,
        ih _ (fun e' h' => h e' (List.mem_cons_of_mem _ h'))]
      simp [tag_one_fst_email]

theorem matched_fold_dry_writes (putOk : Int → UpdateData → Bool)
    (key : Option String) (pu : List (String × PGUser))
    (pb : List (String × PDPerson)) (byName : List (String × PDOrg))
    (byId : List (PDId × PDOrg)) (emails : List String)
    (acc : List ChangeRecord × List (Int × UpdateData)) :
    (emails.foldl (matched_step true putOk key pu pb byName byId) acc).2
      = acc.2 := by
  induction emails generalizing acc with
  | nil => rfl
  | cons e rest ih =>
      rw [List.foldl_cons, ih]
      simp only [matched_step]
      cases hpg : alookup pu e <;> cases hpd : alookup pb e <;>
        simp [sync_one_matched_dry_write]

theorem tag_fold_dry_writes (putOk : Int → UpdateData → Bool)
    (key : Option String) (pb : List (String × PDPerson))
    (byId : List (PDId × PDOrg)) (emails : List String)
    (acc : List ChangeRecord × List (Int × UpdateData)) :
    (emails.foldl (tag_step true putOk key pb byId) acc).2 = acc.2 := by
  induction emails generalizing acc with
  | nil => rfl
  | cons e rest ih =>
      rw [List.foldl_cons, ih]
      simp only [tag_step]
      cases hpd : alookup pb e <;> simp [tag_one_dry_write]

theorem matched_fold_dry_status (putOk : Int → UpdateData → Bool)
    (key : Option String) (pu : List (String × PGUser))
    (pb : List (String × PDPerson)) (byName : List (String × PDOrg))
    (byId : List (PDId × PDOrg)) (emails : List String)
    (acc : List ChangeRecord × List (Int × UpdateData))
    (c : ChangeRecord)
    (hc : c ∈ (emails.foldl
        (matched_step true putOk key pu pb byName byId) acc).1) :
    c ∈ acc.1 ∨ c.status = "dry_run" ∨ c.status = "skipped" := by
  induction emails generalizing acc with
  | nil => exact Or.inl hc
  | cons e rest ih =>
      rw [List.foldl_cons] at hc
      rcases ih _ hc with hmem | hs
      · simp only [matched_step] at hmem
        cases hpg : alookup pu e <;> cases hpd : alookup pb e <;>
          rw [hpg, hpd] at hmem <;> simp at hmem <;>
          try exact Or.inl hmem
        rcases hmem with hmem | hmem
        · exact Or.inl hmem
        · subst hmem
          exact Or.inr (sync_one_matched_dry_status putOk key byName byId
            e _ _)
      · exact Or.inr hs

theorem tag_fold_dry_status (putOk : Int → UpdateData → Bool)
    (key : Option String) (pb : List (String × PDPerson))
    (byId : List (PDId × PDOrg)) (emails : List String)
    (acc : List ChangeRecord × List (Int × UpdateData)) (c : ChangeRecord)
    (hc : c ∈ (emails.foldl (tag_step true putOk key pb byId) acc).1) :
    c ∈ acc.1 ∨ c.status = "dry_run" := by
  induction emails generalizing acc with
  | nil => exact Or.inl hc
  | cons e rest ih =>
      rw [List.foldl_cons] at hc
      rcases ih _ hc with hmem | hs
      · simp only [tag_step] at hmem
        cases hpd : alookup pb e <;> rw [hpd] at hmem <;> simp at hmem
        · exact Or.inl hmem
        · rcases hmem with hmem | hmem
          · exact Or.inl hmem
          · subst hmem
            exact Or.inr (tag_one_dry_status putOk key byId e _)
      · exact Or.inr hs

end Sync

namespace Sync

open PD

theorem inBoth_has_both (pu : List (String × PGUser))
    (pb : List (String × PDPerson)) :
    ∀ e ∈ inBoth pu pb, hasKey pu e = true ∧ hasKey pb e = true := by
  intro e he
  have h := List.mem_filter.1 he
  exact ⟨hasKey_of_mem_keysOf h.1, by simpa using h.2⟩

theorem onlyPipedrive_has (pu : List (String × PGUser))
    (pb : List (String × PDPerson)) :
    ∀ e ∈ onlyPipedrive pu pb,
      hasKey pb e = true ∧ hasKey pu e = false := by
  intro e he
  have h := List.mem_filter.1 he
  exact ⟨hasKey_of_mem_keysOf h.1, by simpa using h.2⟩

/-- Every run produces exactly one change record per identity key:
one for each email in both systems, then one for each Pipedrive-only
email, in that order. -/
theorem sync_persons_emails (dryRun : Bool)
    (putOk : Int → UpdateData → Bool) (pu : List (String × PGUser))
    (pb : List (String × PDPerson)) (byName : List (String × PDOrg))
    (byId : List (PDId × PDOrg)) (k1 k2 : Option String) :
    ((sync_persons dryRun putOk pu pb byName byId k1 k2).1).map
        ChangeRecord.email
      = inBoth pu pb ++ onlyPipedrive pu pb := by
  simp only [sync_persons]
  rw [tag_fold_emails _ _ _ _ _ _ _ (fun e he => (onlyPipedrive_has pu pb e he).1),
    matched_fold_emails _ _ _ _ _ _ _ _ _ (inBoth_has_both pu pb)]
  simp

theorem inBoth_append_onlyPipedrive_nodup (pu : List (String × PGUser))
    (pb : List (String × PDPerson)) (hpu : (keysOf pu).Nodup)
    (hpb : (keysOf pb).Nodup) :
    (inBoth pu pb ++ onlyPipedrive pu pb).Nodup := by
  refine List.Nodup.append (List.Nodup.filter _ hpu)
    (List.Nodup.filter _ hpb) ?_
  intro e he1 he2
  have h1 := (inBoth_has_both pu pb e he1).1
  have h2 := (onlyPipedrive_has pu pb e he2).2
  rw [h1] at h2
  exact absurd h2 (by simp)

/-- Dry-run mode issues no `api_put` at all from `sync_persons`. -/
theorem sync_persons_dry_writes (putOk : Int → UpdateData → Bool)
    (pu : List (String × PGUser)) (pb : List (String × PDPerson))
    (byName : List (String × PDOrg)) (byId : List (PDId × PDOrg))
    (k1 k2 : Option String) :
    (sync_persons true putOk pu pb byName byId k1 k2).2 = [] := by
  simp only [sync_persons]
  rw [tag_fold_dry_writes, matched_fold_dry_writes]

/-- In dry-run mode every change record carries the distinct
`dry_run` status (or `skipped` when the computed payload is empty). -/
theorem sync_persons_dry_status (putOk : Int → UpdateData → Bool)
    (pu : List (String × PGUser)) (pb : List (String × PDPerson))
    (byName : List (String × PDOrg)) (byId : List (PDId × PDOrg))
    (k1 k2 : Option String) (c : ChangeRecord)
    (hc : c ∈ (sync_persons true putOk pu pb byName byId k1 k2).1) :
    c.status = "dry_run" ∨ c.status = "skipped" := by
  simp only [sync_persons] at hc
  rcases tag_fold_dry_status _ _ _ _ _ _ _ hc with hmem | hs
  · rcases matched_fold_dry_status _ _ _ _ _ _ _ _ _ hmem with hmem2 | hs2
    · simp at hmem2
    · exact hs2
  · exact Or.inl hs

end Sync

/-! ### Claim theorems -/

open PD

/-- C2, counterexample.  The sync loader keeps the *first* row's scalar
values for a duplicated key, not the last row's: two rows share
`a@x.com`, the first says ("Alice", 10), the last says ("Alicia", 20),
and the loaded entry holds ("Alice", 10). -/
theorem claim_C2_counterexample :
    (alookup (Sync.load_postgres_data
        [⟨"a@x.com", "O1", 1, 10, "Alice"⟩,
         ⟨"a@x.com", "O2", 2, 20, "Alicia"⟩]).users "a@x.com").map
          (fun u => (u.name, u.user_id))
      = some ("Alice", 10) ∧
    (alookup (Sync.load_postgres_data
        [⟨"a@x.com", "O1", 1, 10, "Alice"⟩,
         ⟨"a@x.com", "O2", 2, 20, "Alicia"⟩]).users "a@x.com").map
          (fun u => (u.name, u.user_id))
      ≠ some ("Alicia", 20) := by
  constructor
  · decide
  · decide

/-- C2, amended.  Both loaders produce exactly one entry per
normalized key.  The enrichment loader keeps the *last* row bearing the
key.  The sync loader keeps the *first* row's scalar values (display
name, external user id); only the organization list accumulates across
later rows. -/
theorem claim_C2 :
    (∀ rows : List Sync.CSVRow,
        (keysOf (Sync.load_postgres_data rows).users).Nodup) ∧
    (∀ (rows : List Sync.CSVRow) (key : String),
        (alookup (Sync.load_postgres_data rows).users key).map
            (fun u => (u.name, u.user_id))
          = ((rows.filter (fun r => Sync.rowEmail r = key)).head?).map
              (fun r => (pyStrip r.fullName, r.userId))) ∧
    (∀ rows : List Enrich.ERow,
        (keysOf (Enrich.load_postgres_data rows)).Nodup) ∧
    (∀ (rows : List Enrich.ERow) (key : String), key ≠ "" →
        alookup (Enrich.load_postgres_data rows) key
          = (rows.filter (fun r => Enrich.rowKey r = key)).getLast?) := by
  refine ⟨Sync.load_users_nodup, ?_, Enrich.enrich_load_nodup,
    Enrich.enrich_load_lookup⟩
  intro rows key
  rw [Sync.load_lookup_eq]
  cases hf : rows.filter (fun r => Sync.rowEmail r = key) with
  | nil => simp
  | cons r rest => simp

/-- C2, witness: the enrichment loader at a concrete two-row input
keeps the last row for the key `a@x.com`. -/
theorem claim_C2_witness :
    alookup (Enrich.load_postgres_data
        [⟨some "a@x.com", some "Alice", some "10", some "Acme (1)"⟩,
         ⟨some "a@x.com", some "Alicia", some "20", some "Beta (2)"⟩])
        "a@x.com"
      = some ⟨some "a@x.com", some "Alicia", some "20", some "Beta (2)"⟩ := by
  rw [claim_C2.2.2.2
    [⟨some "a@x.com", some "Alice", some "10", some "Acme (1)"⟩,
     ⟨some "a@x.com", some "Alicia", some "20", some "Beta (2)"⟩]
    "a@x.com" (by decide)]
  decide

/-- C4.  The rendered "all organizations" value of every loaded user is
the comma-separated concatenation of `Name (id)` entries over the
user's memberships accumulated from its CSV rows with duplicates by
organization id suppressed in first-seen order (the accumulated ids are
pairwise distinct); in particular a user whose rows carry the
memberships [("Acme", 1), ("Acme", 1), ("Beta", 2)] renders exactly
"Acme (1), Beta (2)". -/
theorem claim_C4 :
    (∀ (rows : List Sync.CSVRow) (key : String) (u : Sync.PGUser),
        alookup (Sync.load_postgres_data rows).users key = some u →
          Sync.allOrgsValue u
              = String.intercalate ", " (u.orgs.map Sync.fmtOrg) ∧
            u.orgs = (rows.filter
              (fun r => Sync.rowEmail r = key)).foldl Sync.orgs_step [] ∧
            (u.orgs.map Sync.PGOrg.id).Nodup) ∧
    (alookup (Sync.load_postgres_data
        [⟨"a@x.com", "Acme", 1, 10, "Ann"⟩,
         ⟨"a@x.com", "Acme", 1, 10, "Ann"⟩,
         ⟨"a@x.com", "Beta", 2, 10, "Ann"⟩]).users "a@x.com").map
          Sync.allOrgsValue
      = some "Acme (1), Beta (2)" := by
  constructor
  · intro rows key u h
    have hl := Sync.load_lookup_eq rows key
    rw [h] at hl
    cases hf : rows.filter (fun r => Sync.rowEmail r = key) with
    | nil => rw [hf] at hl; exact absurd hl (by simp)
    | cons r rest =>
        rw [hf] at hl
        injection hl with hu
        refine ⟨rfl, ?_, ?_⟩
        · rw [hu]
        · rw [hu]
          exact Sync.orgs_foldl_ids_nodup _ [] (by simp)
  · decide

/-- C4, witness: the general statement applied to the three-row input
of the concrete example. -/
theorem claim_C4_witness :
    Sync.allOrgsValue ⟨"Ann", 10, [⟨"Acme", 1⟩, ⟨"Beta", 2⟩]⟩
        = String.intercalate ", "
            (([⟨"Acme", 1⟩, ⟨"Beta", 2⟩] : List Sync.PGOrg).map Sync.fmtOrg) ∧
      ([⟨"Acme", 1⟩, ⟨"Beta", 2⟩] : List Sync.PGOrg)
        = ([⟨"a@x.com", "Acme", 1, 10, "Ann"⟩,
            ⟨"a@x.com", "Acme", 1, 10, "Ann"⟩,
            ⟨"a@x.com", "Beta", 2, 10, "Ann"⟩].filter
              (fun r => Sync.rowEmail r = "a@x.com")).foldl
            Sync.orgs_step [] ∧
      ((([⟨"Acme", 1⟩, ⟨"Beta", 2⟩] : List Sync.PGOrg)).map
        Sync.PGOrg.id).Nodup :=
  claim_C4.1
    [⟨"a@x.com", "Acme", 1, 10, "Ann"⟩,
     ⟨"a@x.com", "Acme", 1, 10, "Ann"⟩,
     ⟨"a@x.com", "Beta", 2, 10, "Ann"⟩]
    "a@x.com" ⟨"Ann", 10, [⟨"Acme", 1⟩, ⟨"Beta", 2⟩]⟩ (by decide)

/-- C5.  For every identity key loaded from the authoritative source
but absent from the CRM email index, the enrichment engine emits a
create operation whose payload carries the display name, the user-id
enrichment field, the all-organizations enrichment field, the status
label (the resolved id of the "IN DATABASE" tag) and the identity key
itself under the `email` key. -/
theorem claim_C5 (kUid kOrgs : String) (labelId : Int)
    (idx : List (String × PDPerson)) (email : String) (row : Enrich.ERow)
    (h : alookup idx email = none) (h1 : kUid ≠ "email")
    (h2 : kOrgs ≠ "email") :
    Enrich.enrich_one kUid kOrgs labelId idx email row
      = .create [("name", .str row.full_name),
          (kUid, .str row.user_id),
          (kOrgs, .str row.all_ligr_organizations),
          ("label", .label labelId),
          ("email", .str (some email))] :=
  Enrich.enrich_one_create kUid kOrgs labelId idx email row h h1 h2

/-- C5, witness at a concrete unmatched identity. -/
theorem claim_C5_witness :
    Enrich.enrich_one "kuid" "korgs" 3 [] "a@x.com"
        ⟨some "a@x.com", some "Ann", some "10", some "Acme (1)"⟩
      = .create [("name", .str (some "Ann")),
          ("kuid", .str (some "10")),
          ("korgs", .str (some "Acme (1)")),
          ("label", .label 3),
          ("email", .str (some "a@x.com"))] :=
  claim_C5 "kuid" "korgs" 3 [] "a@x.com"
    ⟨some "a@x.com", some "Ann", some "10", some "Acme (1)"⟩
    rfl (by decide) (by decide)

/-- C6, counterexample.  A failing page does not abort the run and does
not discard what was already fetched: after one successful page with
item 1, a page with success=false merely stops pagination and the
fetcher returns `[1]` — a nonempty partial snapshot handed on to
reconciliation (the function has no failure channel at all). -/
theorem claim_C6_counterexample :
    fetch_all_paginated (α := Nat)
        [⟨true, [1], true⟩, ⟨false, [2], true⟩] [] = [1] ∧
      ([1] : List Nat) ≠ [] := by
  constructor
  · rfl
  · decide

/-- C6, amended.  Encountering a page whose response reports
success=false stops pagination, and the items of the pages fetched so
far are returned; the run then proceeds with this partial snapshot —
nothing is discarded and nothing aborts, and pages the service would
have produced after the failure are never consulted. -/
theorem claim_C6 {α : Type} (good : List (Page α)) (bad : Page α)
    (rest : List (Page α)) (acc : List α)
    (hgood : ∀ p ∈ good, p.success = true ∧ p.data ≠ [] ∧
      p.more_items_in_collection = true)
    (hbad : bad.success = false) :
    fetch_all_paginated (good ++ bad :: rest) acc
      = acc ++ (good.map Page.data).flatten :=
  fetch_stops_at_failure good bad rest acc hgood hbad

/-- C6, witness at a concrete page sequence. -/
theorem claim_C6_witness :
    fetch_all_paginated (α := Nat)
        ([⟨true, [1, 2], true⟩] ++ (⟨false, [3], true⟩ : Page Nat) :: []) []
      = [] ++ ([[1, 2]] : List (List Nat)).flatten :=
  claim_C6 [⟨true, [1, 2], true⟩] ⟨false, [3], true⟩ [] []
    (by intro p hp; simp at hp; subst hp; exact ⟨rfl, by decide, rfl⟩)
    rfl

/-- C10.  For a matched identity, the enrichment update payload is sent
to the matched person's id and contains exactly the keys name, user-id
field, all-organizations field and label; in particular (the custom
field keys being distinct from the reserved names) it carries no
`email` and no `org_id` entry, so the contact's email addresses and
organization link are untouched. -/
theorem claim_C10 (kUid kOrgs : String) (labelId : Int)
    (idx : List (String × PDPerson)) (email : String) (row : Enrich.ERow)
    (p : PDPerson) (h : alookup idx email = some p)
    (h1 : kUid ≠ "email") (h2 : kOrgs ≠ "email")
    (h3 : kUid ≠ "org_id") (h4 : kOrgs ≠ "org_id") :
    Enrich.enrich_one kUid kOrgs labelId idx email row
        = .update p.id (Enrich.buildPayload kUid kOrgs labelId row) ∧
      (Enrich.buildPayload kUid kOrgs labelId row).map Prod.fst
        = ["name", kUid, kOrgs, "label"] ∧
      hasKey (Enrich.buildPayload kUid kOrgs labelId row) "email" = false ∧
      hasKey (Enrich.buildPayload kUid kOrgs labelId row) "org_id"
        = false := by
  refine ⟨Enrich.enrich_one_matched kUid kOrgs labelId idx email row p h,
    Enrich.buildPayload_keys kUid kOrgs labelId row, ?_, ?_⟩
  · refine Enrich.payload_no_key _ _ ?_
    rw [Enrich.buildPayload_keys]
    have e1 : "email" ≠ "name" := by decide
    have e2 : "email" ≠ "label" := by decide
    simp [e1, e2, Ne.symm h1, Ne.symm h2]
  · refine Enrich.payload_no_key _ _ ?_
    rw [Enrich.buildPayload_keys]
    have e1 : "org_id" ≠ "name" := by decide
    have e2 : "org_id" ≠ "label" := by decide
    simp [e1, e2, Ne.symm h3, Ne.symm h4]

/-- C10, witness at a concrete matched identity. -/
theorem claim_C10_witness :
    Enrich.enrich_one "kuid" "korgs" 3
          [("a@x.com", ⟨7, some "Ann", ["a@x.com"], none, []⟩)] "a@x.com"
          ⟨some "a@x.com", some "Ann", some "10", some "Acme (1)"⟩
        = .update 7 (Enrich.buildPayload "kuid" "korgs" 3
            ⟨some "a@x.com", some "Ann", some "10", some "Acme (1)"⟩) ∧
      (Enrich.buildPayload "kuid" "korgs" 3
          ⟨some "a@x.com", some "Ann", some "10", some "Acme (1)"⟩).map
          Prod.fst
        = ["name", "kuid", "korgs", "label"] ∧
      hasKey (Enrich.buildPayload "kuid" "korgs" 3
          ⟨some "a@x.com", some "Ann", some "10", some "Acme (1)"⟩)
          "email" = false ∧
      hasKey (Enrich.buildPayload "kuid" "korgs" 3
          ⟨some "a@x.com", some "Ann", some "10", some "Acme (1)"⟩)
          "org_id" = false :=
  claim_C10 "kuid" "korgs" 3
    [("a@x.com", ⟨7, some "Ann", ["a@x.com"], none, []⟩)] "a@x.com"
    ⟨some "a@x.com", some "Ann", some "10", some "Acme (1)"⟩
    ⟨7, some "Ann", ["a@x.com"], none, []⟩
    (by decide) (by decide) (by decide) (by decide) (by decide)

/-- C1, counterexample.  A matched identity for which nothing differs —
the organization link is kept, and the contact's stored enrichment
value already equals the recomputed all-organizations value — still
receives a network write (`api_put` with the all-orgs field), and its
decision status is "success", not a no-op: the engine never compares
the computed value against the contact's current CRM value, so a second
run against the already-updated snapshot issues the same write again. -/
theorem claim_C1_counterexample :
    (Sync.sync_one_matched false (fun _ _ => true) (some "korgs")
        [("acme", ⟨PDId.int 5, "Acme"⟩)]
        [(PDId.int 5, ⟨PDId.int 5, "Acme"⟩)] "a@x.com"
        ⟨"Alice", 1, [⟨"Acme", 1⟩]⟩
        ⟨7, some "Alice", ["a@x.com"], some (PDId.int 5),
          [("korgs", "Acme (1)")]⟩).1.org_action = "kept" ∧
      (⟨7, some "Alice", ["a@x.com"], some (PDId.int 5),
          [("korgs", "Acme (1)")]⟩ : PDPerson).customFields
        = [("korgs", Sync.allOrgsValue ⟨"Alice", 1, [⟨"Acme", 1⟩]⟩)] ∧
      (Sync.sync_one_matched false (fun _ _ => true) (some "korgs")
        [("acme", ⟨PDId.int 5, "Acme"⟩)]
        [(PDId.int 5, ⟨PDId.int 5, "Acme"⟩)] "a@x.com"
        ⟨"Alice", 1, [⟨"Acme", 1⟩]⟩
        ⟨7, some "Alice", ["a@x.com"], some (PDId.int 5),
          [("korgs", "Acme (1)")]⟩).2
        = some (7, ⟨none, [("korgs", "Acme (1)")]⟩) ∧
      (Sync.sync_one_matched false (fun _ _ => true) (some "korgs")
        [("acme", ⟨PDId.int 5, "Acme"⟩)]
        [(PDId.int 5, ⟨PDId.int 5, "Acme"⟩)] "a@x.com"
        ⟨"Alice", 1, [⟨"Acme", 1⟩]⟩
        ⟨7, some "Alice", ["a@x.com"], some (PDId.int 5),
          [("korgs", "Acme (1)")]⟩).1.status = "success" := by
  refine ⟨?_, ?_, ?_, ?_⟩ <;> decide

/-- C1, amended.  For a matched identity in live mode the write
condition is payload non-emptiness, not difference detection: whenever
a usable (non-empty, non-dry-run) all-organizations field key is
configured, a network write is issued and the decision is not a no-op,
regardless of the contact's current CRM values (the decision and the
write are invariant under the contact's stored custom-field values, so
a second run repeats the same writes).  A decision without a write is
recorded with the no-op status "skipped", and conversely. -/
theorem claim_C1 :
    (∀ (putOk : Int → Sync.UpdateData → Bool) (k : String)
        (byName : List (String × PDOrg)) (byId : List (PDId × PDOrg))
        (email : String) (u : Sync.PGUser) (p : PDPerson),
        k ≠ "" → k.startsWith "DRY_RUN" = false →
          (Sync.sync_one_matched false putOk (some k) byName byId email
              u p).2.isSome = true ∧
            (Sync.sync_one_matched false putOk (some k) byName byId email
              u p).1.status ≠ "skipped" ∧
            ∀ cf,
              Sync.sync_one_matched false putOk (some k) byName byId email
                  u { p with customFields := cf }
                = Sync.sync_one_matched false putOk (some k) byName byId
                    email u p) ∧
    (∀ (putOk : Int → Sync.UpdateData → Bool) (key : Option String)
        (byName : List (String × PDOrg)) (byId : List (PDId × PDOrg))
        (email : String) (u : Sync.PGUser) (p : PDPerson),
        (Sync.sync_one_matched false putOk key byName byId email u p).2
            = none
          ↔ (Sync.sync_one_matched false putOk key byName byId email
              u p).1.status = "skipped") := by
  refine ⟨?_, Sync.sync_one_matched_write_iff_not_skipped⟩
  intro putOk k byName byId email u p hk hpre
  exact ⟨(Sync.sync_one_matched_usable_key_write putOk byName byId email
      u p k hk hpre).1,
    (Sync.sync_one_matched_usable_key_write putOk byName byId email
      u p k hk hpre).2,
    fun cf => Sync.sync_one_matched_ignores_custom_fields false putOk
      (some k) byName byId email u p cf⟩

/-- C1, witness at a concrete matched identity with a usable field
key. -/
theorem claim_C1_witness :
    (Sync.sync_one_matched false (fun _ _ => true) (some "korgs") [] []
        "a@x.com" ⟨"Alice", 1, [⟨"Acme", 1⟩]⟩
        ⟨7, none, [], none, []⟩).2.isSome = true ∧
      (Sync.sync_one_matched false (fun _ _ => true) (some "korgs") [] []
        "a@x.com" ⟨"Alice", 1, [⟨"Acme", 1⟩]⟩
        ⟨7, none, [], none, []⟩).1.status ≠ "skipped" ∧
      ∀ cf,
        Sync.sync_one_matched false (fun _ _ => true) (some "korgs") [] []
            "a@x.com" ⟨"Alice", 1, [⟨"Acme", 1⟩]⟩
            { (⟨7, none, [], none, []⟩ : PDPerson) with customFields := cf }
          = Sync.sync_one_matched false (fun _ _ => true) (some "korgs")
              [] [] "a@x.com" ⟨"Alice", 1, [⟨"Acme", 1⟩]⟩
              ⟨7, none, [], none, []⟩ :=
  claim_C1.1 (fun _ _ => true) "korgs" [] [] "a@x.com"
    ⟨"Alice", 1, [⟨"Acme", 1⟩]⟩ ⟨7, none, [], none, []⟩
    (by decide) (by decide)

/-- C3.  When the contact's current organization name (resolved
through the org-by-id index, truthy) case-insensitively equals any of
the authoritative user's organization names, in any position, the
decision's organization action is "kept" and any update issued for the
contact carries no organization-link change. -/
theorem claim_C3 (dryRun : Bool) (putOk : Int → Sync.UpdateData → Bool)
    (key : Option String) (byName : List (String × PDOrg))
    (byId : List (PDId × PDOrg)) (email : String) (u : Sync.PGUser)
    (p : PDPerson) (n : String)
    (hname : Sync.currentOrgName byId p.org_id = some n) (hn : n ≠ "")
    (hcont : pyLower n ∈ u.orgs.map (fun o => pyLower o.name)) :
    (Sync.sync_one_matched dryRun putOk key byName byId email
        u p).1.org_action = "kept" ∧
      ∀ pid ud,
        (Sync.sync_one_matched dryRun putOk key byName byId email u p).2
            = some (pid, ud) → ud.org_id = none :=
  Sync.sync_one_matched_kept dryRun putOk key byName byId email u p n
    hname hn hcont

/-- C3, witness: the second candidate org matches the current link. -/
theorem claim_C3_witness :
    (Sync.sync_one_matched false (fun _ _ => true) (some "korgs")
        [("beta", ⟨PDId.int 8, "Beta"⟩)]
        [(PDId.int 5, ⟨PDId.int 5, "Acme"⟩)] "a@x.com"
        ⟨"Alice", 1, [⟨"Beta", 2⟩, ⟨"ACME", 1⟩]⟩
        ⟨7, none, [], some (PDId.int 5), []⟩).1.org_action = "kept" ∧
      ∀ pid ud,
        (Sync.sync_one_matched false (fun _ _ => true) (some "korgs")
            [("beta", ⟨PDId.int 8, "Beta"⟩)]
            [(PDId.int 5, ⟨PDId.int 5, "Acme"⟩)] "a@x.com"
            ⟨"Alice", 1, [⟨"Beta", 2⟩, ⟨"ACME", 1⟩]⟩
            ⟨7, none, [], some (PDId.int 5), []⟩).2
          = some (pid, ud) → ud.org_id = none :=
  claim_C3 false (fun _ _ => true) (some "korgs")
    [("beta", ⟨PDId.int 8, "Beta"⟩)]
    [(PDId.int 5, ⟨PDId.int 5, "Acme"⟩)] "a@x.com"
    ⟨"Alice", 1, [⟨"Beta", 2⟩, ⟨"ACME", 1⟩]⟩
    ⟨7, none, [], some (PDId.int 5), []⟩ "Acme"
    (by decide) (by decide) (by decide)

/-- C7, counterexample.  One remote contact (id 7) listing two emails,
one matched by the authoritative set and one not, contributes two
change records in a single run — one update decision and one
tagged-not-in-db decision. -/
theorem claim_C7_counterexample :
    ((Sync.sync_persons false (fun _ _ => true)
        [("a@x.com", ⟨"Alice", 1, [⟨"Acme", 1⟩]⟩)]
        (build_email_index
          [⟨7, some "Bob", ["a@x.com", "b@x.com"], none, []⟩])
        [("acme", ⟨PDId.int 5, "Acme"⟩)] [] (some "korgs")
        (some "kdb")).1).map (fun c => c.pd_person_id)
      = [7, 7] := by decide

/-- C7, amended.  Each identity key contributes exactly one change
record: the record emails are exactly the in-both keys followed by the
Pipedrive-only keys, without duplicates (given duplicate-free inputs).
Hence every AuthoritativeUser yields at most one decision, while a
RemoteContact yields one decision per distinct normalized email it
carries and can therefore receive several. -/
theorem claim_C7 (dryRun : Bool) (putOk : Int → Sync.UpdateData → Bool)
    (pu : List (String × Sync.PGUser)) (pb : List (String × PDPerson))
    (byName : List (String × PDOrg)) (byId : List (PDId × PDOrg))
    (k1 k2 : Option String) (hpu : (keysOf pu).Nodup)
    (hpb : (keysOf pb).Nodup) :
    ((Sync.sync_persons dryRun putOk pu pb byName byId k1 k2).1).map
        Sync.ChangeRecord.email
      = Sync.inBoth pu pb ++ Sync.onlyPipedrive pu pb ∧
    (((Sync.sync_persons dryRun putOk pu pb byName byId k1 k2).1).map
        Sync.ChangeRecord.email).Nodup := by
  refine ⟨Sync.sync_persons_emails dryRun putOk pu pb byName byId k1 k2,
    ?_⟩
  rw [Sync.sync_persons_emails]
  exact Sync.inBoth_append_onlyPipedrive_nodup pu pb hpu hpb

/-- C7, witness at the counterexample's input (whose key lists are
duplicate-free). -/
theorem claim_C7_witness :
    ((Sync.sync_persons false (fun _ _ => true)
        [("a@x.com", ⟨"Alice", 1, [⟨"Acme", 1⟩]⟩)]
        (build_email_index
          [⟨7, some "Bob", ["a@x.com", "b@x.com"], none, []⟩])
        [("acme", ⟨PDId.int 5, "Acme"⟩)] [] (some "korgs")
        (some "kdb")).1).map Sync.ChangeRecord.email
      = Sync.inBoth [("a@x.com", ⟨"Alice", 1, [⟨"Acme", 1⟩]⟩)]
          (build_email_index
            [⟨7, some "Bob", ["a@x.com", "b@x.com"], none, []⟩])
        ++ Sync.onlyPipedrive [("a@x.com", ⟨"Alice", 1, [⟨"Acme", 1⟩]⟩)]
          (build_email_index
            [⟨7, some "Bob", ["a@x.com", "b@x.com"], none, []⟩]) ∧
    (((Sync.sync_persons false (fun _ _ => true)
        [("a@x.com", ⟨"Alice", 1, [⟨"Acme", 1⟩]⟩)]
        (build_email_index
          [⟨7, some "Bob", ["a@x.com", "b@x.com"], none, []⟩])
        [("acme", ⟨PDId.int 5, "Acme"⟩)] [] (some "korgs")
        (some "kdb")).1).map Sync.ChangeRecord.email).Nodup :=
  claim_C7 false (fun _ _ => true)
    [("a@x.com", ⟨"Alice", 1, [⟨"Acme", 1⟩]⟩)]
    (build_email_index [⟨7, some "Bob", ["a@x.com", "b@x.com"], none, []⟩])
    [("acme", ⟨PDId.int 5, "Acme"⟩)] [] (some "korgs") (some "kdb")
    (by decide) (by decide)

/-- C8.  An authoritative org missing from the remote name index is
inserted into that index by the pre-creation pass (live path with the
service-assigned org, dry-run path with its synthesized placeholder),
so any later person-sync organization resolution whose primary
candidate is that org finds it and links to the just-created id with
action "updated" — it neither falls into the org-not-found path nor
attempts another creation. -/
theorem claim_C8 (createOrg : String → Option PDOrg)
    (pgOrgs : List (String × Sync.PGOrg))
    (orgByName : List (String × PDOrg)) (k : String) (org : Sync.PGOrg)
    (newOrg : PDOrg) (hnd : (keysOf pgOrgs).Nodup)
    (horg : alookup pgOrgs k = some org)
    (hmiss : hasKey orgByName k = false)
    (hco : createOrg org.name = some newOrg) :
    alookup (Sync.create_missing_orgs false createOrg pgOrgs
        orgByName).index k = some newOrg ∧
    (∀ (cur : Option PDId) (curName : Option String) (u : Sync.PGUser),
        Sync.currentMatches curName u = false →
        pyLower (u.orgs.headD ⟨"", 0⟩).name = k →
        Sync.resolveOrg
            (Sync.create_missing_orgs false createOrg pgOrgs
              orgByName).index cur curName u
          = (some newOrg.id, some newOrg.name, "updated")) ∧
    alookup (Sync.create_missing_orgs true createOrg pgOrgs
        orgByName).index k
      = some ⟨PDId.str ("DRY_RUN_" ++ toString org.id), org.name⟩ := by
  have hmem : (k, org) ∈ pgOrgs.filter
      (fun kv => !hasKey orgByName kv.1) :=
    List.mem_filter.2 ⟨mem_of_alookup_eq_some horg, by simp [hmiss]⟩
  have hnd' := Sync.missing_nodup pgOrgs orgByName hnd
  have hlive : alookup (Sync.create_missing_orgs false createOrg pgOrgs
      orgByName).index k = some newOrg := by
    simp only [Sync.create_missing_orgs]
    exact Sync.create_fold_index_hit_live createOrg _ _ k org newOrg
      hnd' hmem hco
  refine ⟨hlive, ?_, ?_⟩
  · intro cur curName u hcm hhead
    simp only [Sync.resolveOrg, hcm, Bool.false_eq_true, if_false]
    rw [hhead, hlive]
  · simp only [Sync.create_missing_orgs]
    exact Sync.create_fold_index_hit_dry createOrg _ _ k org hnd' hmem

/-- C8, witness: org "Acme" is missing from an empty remote index,
creation assigns id 9, and a user whose first candidate is "Acme"
resolves to the created org. -/
theorem claim_C8_witness :
    alookup (Sync.create_missing_orgs false
        (fun _ => some ⟨PDId.int 9, "Acme"⟩)
        [("acme", ⟨"Acme", 1⟩)] []).index "acme"
      = some ⟨PDId.int 9, "Acme"⟩ ∧
    Sync.resolveOrg
        (Sync.create_missing_orgs false
          (fun _ => some ⟨PDId.int 9, "Acme"⟩)
          [("acme", ⟨"Acme", 1⟩)] []).index none none
        ⟨"Alice", 1, [⟨"Acme", 1⟩]⟩
      = (some (PDId.int 9), some "Acme", "updated") ∧
    alookup (Sync.create_missing_orgs true
        (fun _ => some ⟨PDId.int 9, "Acme"⟩)
        [("acme", ⟨"Acme", 1⟩)] []).index "acme"
      = some ⟨PDId.str "DRY_RUN_1", "Acme"⟩ :=
  ⟨(claim_C8 (fun _ => some ⟨PDId.int 9, "Acme"⟩)
      [("acme", ⟨"Acme", 1⟩)] [] "acme" ⟨"Acme", 1⟩ ⟨PDId.int 9, "Acme"⟩
      (by decide) rfl rfl rfl).1,
   (claim_C8 (fun _ => some ⟨PDId.int 9, "Acme"⟩)
      [("acme", ⟨"Acme", 1⟩)] [] "acme" ⟨"Acme", 1⟩ ⟨PDId.int 9, "Acme"⟩
      (by decide) rfl rfl rfl).2.1 none none
      ⟨"Alice", 1, [⟨"Acme", 1⟩]⟩ rfl (by decide),
   (claim_C8 (fun _ => some ⟨PDId.int 9, "Acme"⟩)
      [("acme", ⟨"Acme", 1⟩)] [] "acme" ⟨"Acme", 1⟩ ⟨PDId.int 9, "Acme"⟩
      (by decide) rfl rfl rfl).2.2⟩

/-- C9.  In dry-run mode no create or update call reaches the remote
service — the org pass posts nothing and the person pass issues no
`api_put` — while the outputs stay fully populated: the org-creation
list covers every missing org with its dry-run placeholder, the change
list carries exactly one record per identity (the same email sequence a
live run would produce), and every record's status is the distinct
"dry_run" (or "skipped" when the computed payload is empty). -/
theorem claim_C9 (createOrg : String → Option PDOrg)
    (pgOrgs : List (String × Sync.PGOrg))
    (orgByName : List (String × PDOrg))
    (putOk : Int → Sync.UpdateData → Bool)
    (pu : List (String × Sync.PGUser)) (pb : List (String × PDPerson))
    (byId : List (PDId × PDOrg)) (k1 k2 : Option String) :
    (Sync.create_missing_orgs true createOrg pgOrgs orgByName).posts
        = [] ∧
    (Sync.create_missing_orgs true createOrg pgOrgs orgByName).created
        = (pgOrgs.filter (fun kv => !hasKey orgByName kv.1)).map
            (fun kv => Sync.CreatedOrg.dry kv.2) ∧
    (Sync.sync_persons true putOk pu pb
        (Sync.create_missing_orgs true createOrg pgOrgs orgByName).index
        byId k1 k2).2 = [] ∧
    ((Sync.sync_persons true putOk pu pb
        (Sync.create_missing_orgs true createOrg pgOrgs orgByName).index
        byId k1 k2).1).map Sync.ChangeRecord.email
      = ((Sync.sync_persons false putOk pu pb
          (Sync.create_missing_orgs true createOrg pgOrgs orgByName).index
          byId k1 k2).1).map Sync.ChangeRecord.email ∧
    ∀ c ∈ (Sync.sync_persons true putOk pu pb
        (Sync.create_missing_orgs true createOrg pgOrgs orgByName).index
        byId k1 k2).1,
      c.status = "dry_run" ∨ c.status = "skipped" := by
  refine ⟨?_, ?_, Sync.sync_persons_dry_writes putOk pu pb _ byId k1 k2,
    ?_, fun c hc => Sync.sync_persons_dry_status putOk pu pb _ byId
      k1 k2 c hc⟩
  · simp only [Sync.create_missing_orgs]
    rw [Sync.create_fold_dry_posts]
  · simp only [Sync.create_missing_orgs]
    rw [Sync.create_fold_dry_created]
    simp
  · rw [Sync.sync_persons_emails, Sync.sync_persons_emails]

/-- C9, witness: a Pipedrive-only contact's dry-run record carries the
"dry_run" status. -/
theorem claim_C9_witness :
    (⟨"b@x.com", some "Bob", 7, none, none, "tagged_not_in_db", none,
        "dry_run", none⟩ : Sync.ChangeRecord).status = "dry_run" ∨
      (⟨"b@x.com", some "Bob", 7, none, none, "tagged_not_in_db", none,
        "dry_run", none⟩ : Sync.ChangeRecord).status = "skipped" :=
  (claim_C9 (fun _ => none) [] [] (fun _ _ => true) []
      [("b@x.com", ⟨7, some "Bob", ["b@x.com"], none, []⟩)] [] none
      none).2.2.2.2
    ⟨"b@x.com", some "Bob", 7, none, none, "tagged_not_in_db", none,
      "dry_run", none⟩ (by decide)
